import Mathlib

/-
Verification development for the coredns-tailscale plugin
(package corednstailscale, file tailscale.go plus its setup file).

The Go source is shallowly embedded:
- strings are Lean String (ASCII code points behave identically),
- Go maps with string keys are association lists where insertion prepends
  and lookup returns the first (that is, most recent) binding, which gives
  the same observable lookup behaviour as Go map overwrite,
- machine integers (uint32) are Nat with explicit reduction modulo 2^32
  where the Go code converts or could overflow,
- nilable Go pointers are Option,
- the DNS wire types from github.com/miekg/dns are plain structures
  carrying exactly the fields the plugin sets; every resource record the
  plugin builds carries class INET, so the class field is not repeated,
- ServeDNS takes the query name, type and class that the coredns
  request.Request accessors QName/QType/QClass would return for the
  request (QName yields the lower-cased question name); writing the
  response message to the ResponseWriter is modelled as returning it
  (the write-error branch, which depends on the external writer, is the
  only part not modelled).
-/

/-! ## Characters and strings: the fragment of strings / miekg-dns used -/

/-- Decides whether a character is an ASCII upper-case letter (A-Z). -/
def isAsciiUpper (c : Char) : Bool :=
  decide (65 ≤ c.toNat) && decide (c.toNat ≤ 90)

/-- Models the per-character action of Go strings.ToLower on ASCII input:
upper-case ASCII letters gain 32, everything else is unchanged. Lean
Char.toLower is exactly this map. (Go also lowers non-ASCII letters; DNS
names handled by this plugin are ASCII, and every statement below about
letter case is about ASCII letters.) -/
def lowerChar (c : Char) : Char := Char.toLower c

/-- Models Go strings.SplitN(s, ".", 2) at the character-list level:
none when the list has no dot (Go returns a one-element slice), otherwise
the part before the first dot and the part after it. -/
def splitFirstDot : List Char → Option (List Char × List Char)
  | [] => none
  | c :: cs =>
    if c = '.' then some ([], cs)
    else
      match splitFirstDot cs with
      | none => none
      | some (before, after) => some (c :: before, after)

/-- Models miekg-dns IsFqdn: the string ends in a dot that is not escaped,
that is, the dot is preceded by an even number of backslashes. -/
def isFqdnL (l : List Char) : Bool :=
  match l.getLast? with
  | some '.' => (l.dropLast.reverse.takeWhile (fun x => x == '\\')).length % 2 == 0
  | _ => false

/-- Models miekg-dns Fqdn: append a trailing dot unless one (unescaped) is
already present. -/
def fqdnL (l : List Char) : List Char :=
  if isFqdnL l then l else l ++ ['.']

/-- Models miekg-dns CanonicalName: strings.ToLower applied to Fqdn. -/
def canonicalName (s : String) : String :=
  ⟨(fqdnL s.data).map lowerChar⟩

/-- Models Go strings.TrimPrefix: drop the leading occurrence of pfx when
s starts with it, otherwise return s unchanged (expressed on the character
lists so that it reduces in the kernel). -/
def trimPfx (s pfx : String) : String :=
  if s.data.take pfx.data.length = pfx.data then ⟨s.data.drop pfx.data.length⟩ else s

/-! ## Addresses (netip.Addr) and the Address Classifier -/

/-- Models netip.Addr: the zero (invalid) address, a 4-byte IPv4 address,
or a 16-byte IPv6 address; Is4/Is6/IsValid are constructor tests and
AsSlice returns the raw bytes. -/
inductive Addr
  | invalid
  | v4 (bytes : List Nat)
  | v6 (bytes : List Nat)
deriving DecidableEq, Repr

/-- Models netip.Addr.AsSlice: the address bytes (nil for the zero Addr). -/
def Addr.asSlice : Addr → List Nat
  | .invalid => []
  | .v4 b => b
  | .v6 b => b

/-- Models bucketAddrs (tailscale.go): split an address list into the IPv4
addresses and the IPv6 addresses in input order, dropping invalid entries. -/
def bucketAddrs : List Addr → List Addr × List Addr
  | [] => ([], [])
  | a :: rest =>
    let p := bucketAddrs rest
    match a with
    | .invalid => p
    | .v4 b => (.v4 b :: p.1, p.2)
    | .v6 b => (p.1, .v6 b :: p.2)

/-! ## Peers, configuration, records -/

/-- Models the used fields of ipnstate.PeerStatus: the DNS name within the
tailnet, the list of tailnet addresses, and the optional (nilable) list of
ACL tags. -/
structure PeerStatus where
  DNSName : String
  TailscaleIPs : List Addr
  Tags : Option (List String)
deriving DecidableEq, Repr

/-- Models record (tailscale.go): the assembled entity for one peer.
name is the peer canonical DNS name (the CNAME target), v4 and v6 the
bucketed addresses. -/
structure record where
  name : String
  v4 : List Addr
  v6 : List Addr
deriving DecidableEq, Repr

/-- Models the records map (map from query name to record pointer) as an
association list: insertion prepends, lookup takes the first binding, so
a later insertion for the same key shadows an earlier one exactly like a
Go map overwrite. -/
abbrev records := List (String × record)

/-- Models a Go map write r[k] = v. -/
def recordsInsert (r : records) (k : String) (v : record) : records :=
  (k, v) :: r

/-- Models a Go map read r[k], which yields the zero value (nil pointer,
here none) for an absent key. -/
def recordsGet (r : records) (k : String) : Option record :=
  match r.find? (fun p => p.1 == k) with
  | some p => some p.2
  | none => none

/-- Models the Config structure (setup file): the required default zone,
the tag-to-zone map, the reload interval (held here in whole seconds; the
Go field is a time.Duration and every use converts it with
uint32(d.Seconds())), and the precomputed zone set fastZoneLookup
(a map from zone name to true, here the list of its keys). -/
structure Config where
  DefaultZone : String
  Zones : List (String × String)
  ReloadInterval : Nat
  fastZoneLookup : List String
deriving DecidableEq, Repr

/-- Models the Go map read config.Zones[tag]: the mapped zone, or the zero
value (the empty string) when the tag is absent. -/
def zonesGet (zs : List (String × String)) (tag : String) : String :=
  match zs.find? (fun p => p.1 == tag) with
  | some p => p.2
  | none => ""

/-- Models buildFastZoneLookup (setup file): the default zone plus every
zone value of the tag map, as inserted into the lookup map. -/
def buildFastZoneLookup (dz : String) (zones : List (String × String)) : List String :=
  dz :: zones.map (fun p => p.2)

/-- Models the fastZoneLookup map read ts.fastZoneLookup[qn]. -/
def fzlContains (c : Config) (qn : String) : Bool :=
  c.fastZoneLookup.contains qn

/-! ## Record Assembler -/

/-- Models peerDNSHostname (tailscale.go): the first label of the peer DNS
name, or the empty string when the name cannot be split at a dot. -/
def peerDNSHostname (pdns : String) : String :=
  match splitFirstDot pdns.data with
  | none => ""
  | some (h, _) => ⟨h⟩

/-- Models zoneFromQN (tailscale.go): strip the leftmost label of the query
name and canonicalise the remainder, or return the empty string when the
name has no dot. -/
def zoneFromQN (qn : String) : String :=
  match splitFirstDot qn.data with
  | none => ""
  | some (_, rest) => canonicalName ⟨rest⟩

/-- Models the tag loop body inside assemblePeer: strip a leading tag:
marker, and insert an entry for the mapped zone when the stripped tag has
a non-empty mapping. -/
def assembleTagStep (config : Config) (phn : String) (host : record) (r : records) (tag : String) : records :=
  let tag2 := trimPfx tag "tag:"
  let zone := zonesGet config.Zones tag2
  if zone ≠ "" then recordsInsert r (canonicalName (phn ++ "." ++ zone)) host else r

/-- Models the tag loop of assemblePeer over the peer tag slice. -/
def assembleTags (config : Config) (phn : String) (host : record) (r : records) (tags : List String) : records :=
  tags.foldl (fun r tag => assembleTagStep config phn host r tag) r

/-- Models assemblePeer (tailscale.go). A nil peer or one without a DNS
name, or whose canonical name yields no hostname label, contributes
nothing and returns nil. Otherwise the record is built from the bucketed
addresses and inserted under the default zone and under every tag-mapped
zone; the record is returned. The mutated map is threaded explicitly. -/
def assemblePeer (config : Config) (peer : Option PeerStatus) (r : records) : records × Option record :=
  match peer with
  | none => (r, none)
  | some peer =>
    if peer.DNSName = "" then (r, none)
    else
      let tsdns := canonicalName peer.DNSName
      let phn := peerDNSHostname tsdns
      if phn = "" then (r, none)
      else
        let bucketed := bucketAddrs peer.TailscaleIPs
        let host : record := ⟨tsdns, bucketed.1, bucketed.2⟩
        let r := recordsInsert r (canonicalName (phn ++ "." ++ config.DefaultZone)) host
        match peer.Tags with
        | none => (r, some host)
        | some tags => (assembleTags config phn host r tags, some host)

/-- Models the peer loop of assemble: fold assemblePeer over the peer
list, keeping only the mutated map. -/
def assemblePeers (config : Config) (peers : List (Option PeerStatus)) (r : records) : records :=
  peers.foldl (fun r p => (assemblePeer config p r).1) r

/-- Models the final loop of assemble: for every zone in fastZoneLookup
insert ns.zone (canonicalised) mapped to the self record. The Go loop
ranges over map keys in unspecified order; since every insertion carries
the same value, lookup results do not depend on the order, and the zone
set is folded in list order here. -/
def assembleNS (config : Config) (sr : record) (r : records) : records :=
  config.fastZoneLookup.foldl (fun r zone => recordsInsert r (canonicalName ("ns." ++ zone)) sr) r

/-- Models assemble (tailscale.go): nil (none) when the default zone is
empty; otherwise all peers are assembled, then the self peer, and when the
self peer produced a record an ns.zone entry per configured zone is added
pointing at it (when it produced none, the map is returned as is). -/
def assemble (config : Config) (self : Option PeerStatus) (peers : List (Option PeerStatus)) : Option records :=
  if config.DefaultZone = "" then none
  else
    let r := assemblePeers config peers []
    let p := assemblePeer config self r
    match p.2 with
    | none => some p.1
    | some sr => some (assembleNS config sr p.1)

/-! ## Resource records, messages, and the Tailscale handler state -/

/-- Models the resource records the plugin constructs (miekg-dns A, AAAA,
CNAME, NS, SOA). Every record the plugin builds carries class INET, so the
class field is omitted; the header name and TTL are explicit, and the SOA
carries its seven RDATA fields. -/
inductive RR
  | a (name : String) (ttl : Nat) (addr : List Nat)
  | aaaa (name : String) (ttl : Nat) (addr : List Nat)
  | cname (name : String) (ttl : Nat) (target : String)
  | ns (name : String) (ttl : Nat) (target : String)
  | soa (name : String) (ttl : Nat) (nsname : String) (mbox : String)
        (serial : Nat) (refresh : Nat) (retry : Nat) (expire : Nat) (minttl : Nat)
deriving DecidableEq, Repr

/-- Owner (header) name of a resource record. -/
def RR.ownerName : RR → String
  | .a n _ _ => n
  | .aaaa n _ _ => n
  | .cname n _ _ => n
  | .ns n _ _ => n
  | .soa n _ _ _ _ _ _ _ _ => n

/-- Header TTL of a resource record. -/
def RR.headerTTL : RR → Nat
  | .a _ t _ => t
  | .aaaa _ t _ => t
  | .cname _ t _ => t
  | .ns _ t _ => t
  | .soa _ t _ _ _ _ _ _ _ => t

/-- Primary nameserver field of an SOA record (0-fields for other types). -/
def RR.soaNs : RR → String
  | .soa _ _ nsn _ _ _ _ _ _ => nsn
  | _ => ""

/-- Serial field of an SOA record. -/
def RR.soaSerial : RR → Nat
  | .soa _ _ _ _ sn _ _ _ _ => sn
  | _ => 0

/-- Refresh field of an SOA record. -/
def RR.soaRefresh : RR → Nat
  | .soa _ _ _ _ _ re _ _ _ => re
  | _ => 0

/-- Retry field of an SOA record. -/
def RR.soaRetry : RR → Nat
  | .soa _ _ _ _ _ _ rt _ _ => rt
  | _ => 0

/-- Expire field of an SOA record. -/
def RR.soaExpire : RR → Nat
  | .soa _ _ _ _ _ _ _ ex _ => ex
  | _ => 0

/-- Minimum-TTL field of an SOA record. -/
def RR.soaMinttl : RR → Nat
  | .soa _ _ _ _ _ _ _ _ mt => mt
  | _ => 0

/-- True exactly for SOA records. -/
def RR.isSOA : RR → Bool
  | .soa _ _ _ _ _ _ _ _ _ => true
  | _ => false

/-- Models the fields of a dns.Msg reply that the plugin sets: the answer
section, the authority (Ns) section, the response code, and the
authoritative / recursion-available / compress header bits. -/
structure Msg where
  answer : List RR
  ns : List RR
  rcode : Nat
  authoritative : Bool
  recursionAvailable : Bool
  compress : Bool
deriving DecidableEq, Repr

/-- Models answer(req) (tailscale.go): SetReply gives a success reply with
empty sections, then the plugin marks it authoritative, disables recursion
availability and enables compression. -/
def answerMsg : Msg :=
  { answer := [], ns := [], rcode := 0,
    authoritative := true, recursionAvailable := false, compress := true }

/-- Outcome of ServeDNS: hand the query to the next plugin in the chain
(plugin.NextOrFailure), or write a reply message and return a code. -/
inductive ServeResult
  | next
  | reply (m : Msg) (rcode : Nat)
deriving DecidableEq, Repr

/-- DNS constants used by the plugin (values from miekg-dns). -/
def classINET : Nat := 1

/-- Wildcard class ANY. -/
def classANY : Nat := 255

/-- Query type A. -/
def typeA : Nat := 1

/-- Query type NS. -/
def typeNS : Nat := 2

/-- Query type CNAME. -/
def typeCNAME : Nat := 5

/-- Query type SOA. -/
def typeSOA : Nat := 6

/-- Query type AAAA. -/
def typeAAAA : Nat := 28

/-- Wildcard query type ANY. -/
def typeANY : Nat := 255

/-- Response code success. -/
def rcodeSuccess : Nat := 0

/-- Response code NXDOMAIN (name error). -/
def rcodeNameError : Nat := 3

/-- Models the serving state of the Tailscale plugin: the embedded Config,
the current snapshot map (nil before the first reload publishes one) and
its serial (a uint32, zero initially). The client, the shutdown channel,
the lock and the next-handler pointer are concurrency plumbing outside
this embedding; ServeDNS below resolves a single query against one
consistent state. -/
structure Tailscale extends Config where
  hosts : Option records
  serial : Nat
deriving DecidableEq, Repr

/-- Models uint32(ts.ReloadInterval.Seconds()) for a whole-second reload
interval: the interval in seconds reduced modulo 2^32. -/
def Tailscale.reloadTTL (ts : Tailscale) : Nat :=
  ts.ReloadInterval % 4294967296

/-- Models Tailscale.A: one A resource record per IPv4 address of the
record, owner name the record name (the peer canonical name), TTL the
reload interval, address bytes copied as is. -/
def Tailscale.A (ts : Tailscale) (hr : record) : List RR :=
  hr.v4.map (fun addr => RR.a hr.name ts.reloadTTL addr.asSlice)

/-- Models Tailscale.AAAA: one AAAA resource record per IPv6 address of
the record. -/
def Tailscale.AAAA (ts : Tailscale) (hr : record) : List RR :=
  hr.v6.map (fun addr => RR.aaaa hr.name ts.reloadTTL addr.asSlice)

/-- Models Tailscale.authority: the synthesized SOA for a zone at a given
serial. ri is the reload interval as uint32; retry and minimum TTL are
ri / 2 (integer division), expire is ri * 2 in uint32 arithmetic (hence
the reduction modulo 2^32). -/
def Tailscale.authority (ts : Tailscale) (zone : String) (sn : Nat) : RR :=
  RR.soa zone ts.reloadTTL ("ns." ++ zone) ("root.ns." ++ zone)
    sn ts.reloadTTL (ts.reloadTTL / 2) (ts.reloadTTL * 2 % 4294967296) (ts.reloadTTL / 2)

/-- Models Tailscale.Ready: the hosts map has been populated at least once
and the serial is positive. -/
def Tailscale.Ready (ts : Tailscale) : Bool :=
  ts.hosts.isSome && decide (0 < ts.serial)

/-- Models Tailscale.lookup: read the record for the query name (a read of
a nil Go map yields the zero value) together with the serial for which the
result is valid, under one read lock. -/
def Tailscale.lookup (ts : Tailscale) (qn : String) : Option record × Nat :=
  (match ts.hosts with
   | none => none
   | some h => recordsGet h qn,
   ts.serial)

/-- Models Tailscale.serveCNAME: a success reply whose answer section is
the CNAME from the query name to the record canonical name, followed by
the A records, followed by the AAAA records. -/
def Tailscale.serveCNAME (ts : Tailscale) (qn : String) (hr : record) : ServeResult :=
  .reply { answerMsg with
           answer := RR.cname qn ts.reloadTTL hr.name :: (ts.A hr ++ ts.AAAA hr) }
    rcodeSuccess

/-- Models Tailscale.serveNoData: a success reply with an empty answer
section and the zone SOA in the authority section; when the zone flag is
false the query name is first reduced to its containing zone. -/
def Tailscale.serveNoData (ts : Tailscale) (qn : String) (zone : Bool) (sn : Nat) : ServeResult :=
  let qn2 := if zone then qn else zoneFromQN qn
  .reply { answerMsg with ns := [ts.authority qn2 sn] } rcodeSuccess

/-- Models Tailscale.serveNXDOMAIN: like serveNoData but with response
code NXDOMAIN in the message and as the returned code. -/
def Tailscale.serveNXDOMAIN (ts : Tailscale) (qn : String) (zone : Bool) (sn : Nat) : ServeResult :=
  let qn2 := if zone then qn else zoneFromQN qn
  .reply { answerMsg with ns := [ts.authority qn2 sn], rcode := rcodeNameError }
    rcodeNameError

/-- Models Tailscale.serveSOA: a success reply whose answer section is the
zone SOA at the given serial. -/
def Tailscale.serveSOA (ts : Tailscale) (qn : String) (sn : Nat) : ServeResult :=
  .reply { answerMsg with answer := [ts.authority qn sn] } rcodeSuccess

/-- Models Tailscale.serveNS: a success reply whose answer section is one
NS record for the zone targeting ns.zone. -/
def Tailscale.serveNS (ts : Tailscale) (qn : String) : ServeResult :=
  .reply { answerMsg with answer := [RR.ns qn ts.reloadTTL ("ns." ++ qn)] } rcodeSuccess

/-- Models Tailscale.ServeDNS on one query, given the values the coredns
request accessors return: pass through unless ready; pass through for a
class other than INET or ANY; pass through when neither the query name nor
its containing zone is in the zone set; then look up the name once. A
zone-apex name is answered by type (NS, SOA, otherwise no data) without
consulting the looked-up record; a miss is NXDOMAIN; a hit is the combined
CNAME answer for types A, AAAA, ANY and CNAME, and no data otherwise. -/
def Tailscale.ServeDNS (ts : Tailscale) (qn : String) (qt : Nat) (qc : Nat) : ServeResult :=
  if ¬ ts.Ready then .next
  else if qc ≠ classINET ∧ qc ≠ classANY then .next
  else if ¬ (fzlContains ts.toConfig qn ∨ fzlContains ts.toConfig (zoneFromQN qn)) then .next
  else
    let looked := ts.lookup qn
    if fzlContains ts.toConfig qn then
      if qt = typeNS then ts.serveNS qn
      else if qt = typeSOA then ts.serveSOA qn looked.2
      else ts.serveNoData qn true looked.2
    else
      match looked.1 with
      | none => ts.serveNXDOMAIN qn false looked.2
      | some hr =>
        if qt = typeA ∨ qt = typeAAAA ∨ qt = typeANY ∨ qt = typeCNAME then ts.serveCNAME qn hr
        else ts.serveNoData qn false looked.2

/-- Answer section of a serve result (empty for a pass-through). -/
def ServeResult.answerOf : ServeResult → List RR
  | .next => []
  | .reply m _ => m.answer

/-- Authority section of a serve result (empty for a pass-through). -/
def ServeResult.authorityOf : ServeResult → List RR
  | .next => []
  | .reply m _ => m.ns

/-! ## Concrete fixtures (mirroring the test configuration of the repo) -/

/-- A small concrete configuration: default zone corp.example.com. and one
tag mapping prod to example.com., reload interval 300 seconds. -/
def cfgT : Config :=
  { DefaultZone := "corp.example.com."
  , Zones := [("prod", "example.com.")]
  , ReloadInterval := 300
  , fastZoneLookup := buildFastZoneLookup "corp.example.com." [("prod", "example.com.")] }

/-- A concrete peer named foo.ts.net. with one IPv4 address and the prod
ACL tag. -/
def peerFoo : PeerStatus :=
  { DNSName := "foo.ts.net.", TailscaleIPs := [Addr.v4 [100, 1, 2, 3]], Tags := some ["tag:prod"] }

/-- A concrete self peer named me.ts.net. with one IPv4 address. -/
def selfPeer : PeerStatus :=
  { DNSName := "me.ts.net.", TailscaleIPs := [Addr.v4 [100, 9, 9, 9]], Tags := none }

/-- The record assembled for peerFoo. -/
def recFoo : record := ⟨"foo.ts.net.", [Addr.v4 [100, 1, 2, 3]], []⟩

/-- The record assembled for selfPeer. -/
def recSelf : record := ⟨"me.ts.net.", [Addr.v4 [100, 9, 9, 9]], []⟩

/-- A ready serving state over cfgT whose snapshot was assembled from
selfPeer and the peer list [peerFoo], with serial 7. -/
def tsT : Tailscale :=
  { toConfig := cfgT, hosts := assemble cfgT (some selfPeer) [some peerFoo], serial := 7 }

/-- A configuration whose zone names are not in DNS canonical form (mixed
case), used to exhibit the mismatch between index keys (canonicalised) and
the zone set (stored verbatim). -/
def cfgUpper : Config :=
  { DefaultZone := "Corp.Example.Com."
  , Zones := []
  , ReloadInterval := 300
  , fastZoneLookup := buildFastZoneLookup "Corp.Example.Com." [] }

/-- A ready serving state over cfgUpper. -/
def tsUpper : Tailscale :=
  { toConfig := cfgUpper, hosts := assemble cfgUpper (some selfPeer) [some peerFoo], serial := 5 }

/-- The serving state as it is before any reload has published a snapshot:
nil hosts map and zero serial (the Go zero values of the guarded fields). -/
def initialTailscale (c : Config) : Tailscale :=
  { toConfig := c, hosts := none, serial := 0 }

/-! ## Claim theorems -/

/-- C9: every SOA the engine synthesizes has primary nameserver ns.zone,
serial the snapshot serial, refresh r, retry r / 2, expire r * 2 and
minimum TTL r / 2, in unsigned 32-bit arithmetic with r the refresh
interval in whole seconds, for every configured interval. -/
theorem claimC9_soa_fields (ts : Tailscale) (zone : String) (sn : Nat) :
    (ts.authority zone sn).isSOA = true ∧
    (ts.authority zone sn).soaNs = "ns." ++ zone ∧
    (ts.authority zone sn).soaSerial = sn ∧
    (ts.authority zone sn).soaRefresh = ts.ReloadInterval % 4294967296 ∧
    (ts.authority zone sn).soaRetry = ts.ReloadInterval % 4294967296 / 2 ∧
    (ts.authority zone sn).soaExpire = ts.ReloadInterval % 4294967296 * 2 % 4294967296 ∧
    (ts.authority zone sn).soaMinttl = ts.ReloadInterval % 4294967296 / 2 :=
  ⟨rfl, rfl, rfl, rfl, rfl, rfl, rfl⟩

/-- C6: with an empty default zone, assemble builds nothing and returns
the nil index, for every self peer and peer list. -/
theorem claimC6_empty_default_zone (config : Config) (self : Option PeerStatus)
    (peers : List (Option PeerStatus)) (h : config.DefaultZone = "") :
    assemble config self peers = none := by
  simp [assemble, h]

/-- Witness for C6 at a concrete configuration with an empty default zone. -/
theorem claimC6_witness :
    assemble { DefaultZone := "", Zones := [("prod", "example.com.")], ReloadInterval := 300,
               fastZoneLookup := [""] } (some selfPeer) [some peerFoo] = none :=
  claimC6_empty_default_zone _ (some selfPeer) [some peerFoo] rfl

/-- C5: in the initial state (nil index, serial zero) Ready is false;
whenever Ready is false every query is passed through to the next handler;
and Ready is true exactly when a non-nil index with positive serial is in
place. -/
theorem claimC5_ready_gate :
    (∀ c : Config, (initialTailscale c).Ready = false) ∧
    (∀ (ts : Tailscale) (qn : String) (qt qc : Nat),
      ts.Ready = false → ts.ServeDNS qn qt qc = .next) ∧
    (∀ ts : Tailscale, ts.Ready = true ↔ ts.hosts ≠ none ∧ 0 < ts.serial) := by
  refine ⟨fun c => rfl, fun ts qn qt qc h => ?_, fun ts => ?_⟩
  · simp [Tailscale.ServeDNS, h]
  · simp [Tailscale.Ready, Option.isSome_iff_ne_none]

/-- Witness for C5: the initial state over cfgT is not ready and declines
a concrete query, and readiness of the concrete ready state tsT matches
the non-nil-index positive-serial characterisation. -/
theorem claimC5_witness :
    (initialTailscale cfgT).Ready = false ∧
    (initialTailscale cfgT).ServeDNS "foo.corp.example.com." typeA classINET = .next ∧
    (tsT.Ready = true ↔ tsT.hosts ≠ none ∧ 0 < tsT.serial) :=
  ⟨claimC5_ready_gate.1 cfgT,
   claimC5_ready_gate.2.1 (initialTailscale cfgT) "foo.corp.example.com." typeA classINET rfl,
   claimC5_ready_gate.2.2 tsT⟩

/-- C4: with the engine ready and class INET or ANY, a query whose name is
a zone of the zone set is answered from the apex branch: type NS gets
exactly one NS record targeting ns.zone, type SOA gets exactly one SOA at
the snapshot serial, and every other type gets a no-data reply (empty
answer, the zone SOA in the authority section); none of the three depends
on what the index holds under that name. -/
theorem claimC4_zone_apex (ts : Tailscale) (qn : String) (qc : Nat)
    (hready : ts.Ready = true) (hqc : qc = classINET ∨ qc = classANY)
    (hzone : fzlContains ts.toConfig qn = true) :
    ts.ServeDNS qn typeNS qc =
      .reply { answerMsg with answer := [RR.ns qn ts.reloadTTL ("ns." ++ qn)] } rcodeSuccess ∧
    ts.ServeDNS qn typeSOA qc =
      .reply { answerMsg with answer := [ts.authority qn ts.serial] } rcodeSuccess ∧
    (∀ qt : Nat, qt ≠ typeNS → qt ≠ typeSOA →
      ts.ServeDNS qn qt qc =
        .reply { answerMsg with ns := [ts.authority qn ts.serial] } rcodeSuccess) := by
  have hc : ¬ (qc ≠ classINET ∧ qc ≠ classANY) := by
    rcases hqc with h | h <;> simp [h]
  refine ⟨?_, ?_, fun qt h2 h6 => ?_⟩
  · simp [Tailscale.ServeDNS, hready, hc, hzone, Tailscale.serveNS, Tailscale.lookup,
          typeNS, typeSOA]
  · simp [Tailscale.ServeDNS, hready, hc, hzone, Tailscale.serveSOA, Tailscale.lookup,
          typeNS, typeSOA]
  · simp only [typeNS] at h2
    simp only [typeSOA] at h6
    simp [Tailscale.ServeDNS, hready, hc, hzone, Tailscale.serveNoData, Tailscale.lookup,
          typeNS, typeSOA, h2, h6]

/-- Witness for C4 at the concrete ready state tsT and the configured zone
corp.example.com., instantiating the other-type case at type TXT (16). -/
theorem claimC4_witness :
    tsT.ServeDNS "corp.example.com." typeNS classINET =
      .reply { answerMsg with
               answer := [RR.ns "corp.example.com." tsT.reloadTTL ("ns." ++ "corp.example.com.")] }
        rcodeSuccess ∧
    tsT.ServeDNS "corp.example.com." typeSOA classINET =
      .reply { answerMsg with answer := [tsT.authority "corp.example.com." tsT.serial] } rcodeSuccess ∧
    tsT.ServeDNS "corp.example.com." 16 classINET =
      .reply { answerMsg with ns := [tsT.authority "corp.example.com." tsT.serial] } rcodeSuccess := by
  have h := claimC4_zone_apex tsT "corp.example.com." classINET (by decide) (Or.inl rfl) (by decide)
  exact ⟨h.1, h.2.1, h.2.2 16 (by decide) (by decide)⟩

/-- C2 counterexample: the concrete ready state tsT, class INET, and the
name foo.other.com., which is not a zone apex and is absent from the
index. The claim says resolve returns NXDOMAIN, but since neither the
name nor its parent zone is in the zone set the code passes the query to
the next handler instead of answering at all. -/
theorem claimC2_counterexample :
    tsT.Ready = true ∧
    fzlContains tsT.toConfig "foo.other.com." = false ∧
    (tsT.lookup "foo.other.com.").1 = none ∧
    tsT.ServeDNS "foo.other.com." typeA classINET = .next := by
  decide

/-- C2 amended: with the engine ready, class INET or ANY, the name not a
zone apex but its parent zone (the name with the leftmost label stripped)
in the zone set, and the name absent from the index, resolve returns
NXDOMAIN with exactly one SOA for that parent zone in the authority
section, for every query type. -/
theorem claimC2_nxdomain (ts : Tailscale) (qn : String) (qc : Nat)
    (hready : ts.Ready = true) (hqc : qc = classINET ∨ qc = classANY)
    (hapex : fzlContains ts.toConfig qn = false)
    (hzone : fzlContains ts.toConfig (zoneFromQN qn) = true)
    (hmiss : (ts.lookup qn).1 = none) (qt : Nat) :
    ts.ServeDNS qn qt qc =
      .reply { answerMsg with
               ns := [ts.authority (zoneFromQN qn) ts.serial], rcode := rcodeNameError }
        rcodeNameError := by
  have hc : ¬ (qc ≠ classINET ∧ qc ≠ classANY) := by
    rcases hqc with h | h <;> simp [h]
  have hser : (ts.lookup qn).2 = ts.serial := rfl
  simp [Tailscale.ServeDNS, hready, hc, hapex, hzone, hmiss, hser,
        Tailscale.serveNXDOMAIN]

/-- Witness for C2 amended: bar.corp.example.com. is under the served
default zone but absent from the concrete index, and gets NXDOMAIN with
the SOA of corp.example.com. -/
theorem claimC2_witness :
    tsT.ServeDNS "bar.corp.example.com." typeA classINET =
      .reply { answerMsg with
               ns := [tsT.authority (zoneFromQN "bar.corp.example.com.") tsT.serial],
               rcode := rcodeNameError }
        rcodeNameError :=
  claimC2_nxdomain tsT "bar.corp.example.com." classINET (by decide) (Or.inl rfl)
    (by decide) (by decide) (by decide) typeA

/-- C3 counterexample: over cfgUpper the configured zone names keep their
verbatim (mixed-case) spelling in the zone set while index keys are
canonicalised, so the lower-case query name foo.corp.example.com. is
present in the index and is not a zone apex, yet a type A query is passed
through instead of getting the combined CNAME answer the claim promises. -/
theorem claimC3_counterexample :
    tsUpper.Ready = true ∧
    (tsUpper.lookup "foo.corp.example.com.").1 = some recFoo ∧
    fzlContains tsUpper.toConfig "foo.corp.example.com." = false ∧
    tsUpper.ServeDNS "foo.corp.example.com." typeA classINET = .next := by
  decide

/-- C3 amended: with the engine ready, class INET or ANY, the name not a
zone apex, its parent zone in the zone set, and the name bound to a record
in the index, resolve returns one and the same combined answer for each of
the four types A, AAAA, CNAME and ANY: the CNAME to the record canonical
name, followed by the A records, followed by the AAAA records. -/
theorem claimC3_combined_answer (ts : Tailscale) (qn : String) (qc : Nat) (hr : record)
    (hready : ts.Ready = true) (hqc : qc = classINET ∨ qc = classANY)
    (hapex : fzlContains ts.toConfig qn = false)
    (hzone : fzlContains ts.toConfig (zoneFromQN qn) = true)
    (hhit : (ts.lookup qn).1 = some hr) :
    ∀ qt ∈ [typeA, typeAAAA, typeCNAME, typeANY],
      ts.ServeDNS qn qt qc =
        .reply { answerMsg with
                 answer := RR.cname qn ts.reloadTTL hr.name :: (ts.A hr ++ ts.AAAA hr) }
          rcodeSuccess := by
  have hc : ¬ (qc ≠ classINET ∧ qc ≠ classANY) := by
    rcases hqc with h | h <;> simp [h]
  intro qt hqt
  have hfour : qt = typeA ∨ qt = typeAAAA ∨ qt = typeANY ∨ qt = typeCNAME := by
    simp only [List.mem_cons, List.mem_singleton] at hqt
    tauto
  simp [Tailscale.ServeDNS, hready, hc, hapex, hzone, hhit, hfour,
        Tailscale.serveCNAME]

/-- Witness for C3 amended at the concrete ready state tsT, name
foo.corp.example.com., record recFoo, and query type A. -/
theorem claimC3_witness :
    tsT.ServeDNS "foo.corp.example.com." typeA classINET =
      .reply { answerMsg with
               answer := RR.cname "foo.corp.example.com." tsT.reloadTTL recFoo.name ::
                 (tsT.A recFoo ++ tsT.AAAA recFoo) }
        rcodeSuccess :=
  claimC3_combined_answer tsT "foo.corp.example.com." classINET recFoo (by decide)
    (Or.inl rfl) (by decide) (by decide) (by decide) typeA (by decide)

/-- C1 counterexample: serving the concrete query foo.corp.example.com.
(type A) yields an A record whose owner name is foo.ts.net., the peer
canonical name, which differs from the query name; the claim that A and
AAAA owner names equal the queried name is false. -/
theorem claimC1_counterexample :
    (tsT.ServeDNS "foo.corp.example.com." typeA classINET).answerOf =
      [ RR.cname "foo.corp.example.com." 300 "foo.ts.net.",
        RR.a "foo.ts.net." 300 [100, 1, 2, 3] ] ∧
    (RR.a "foo.ts.net." 300 [100, 1, 2, 3]).ownerName ≠ "foo.corp.example.com." := by
  decide

/-- C1 amended: for every record, the synthesizer emits exactly one A
record per IPv4 address and one AAAA per IPv6 address; every emitted
record carries the RECORD CANONICAL NAME (the CNAME target) as its owner
name, not the query name, with TTL the refresh interval in seconds
(uint32) and the address bytes copied verbatim. -/
theorem claimC1_synthesizer (ts : Tailscale) (hr : record) :
    ts.A hr = hr.v4.map (fun addr => RR.a hr.name ts.reloadTTL addr.asSlice) ∧
    ts.AAAA hr = hr.v6.map (fun addr => RR.aaaa hr.name ts.reloadTTL addr.asSlice) ∧
    (ts.A hr).length = hr.v4.length ∧
    (ts.AAAA hr).length = hr.v6.length ∧
    (∀ rr ∈ ts.A hr ++ ts.AAAA hr,
      rr.ownerName = hr.name ∧ rr.headerTTL = ts.reloadTTL) := by
  refine ⟨rfl, rfl, List.length_map _ _, List.length_map _ _, fun rr hrr => ?_⟩
  rcases List.mem_append.mp hrr with h | h <;>
    · obtain ⟨addr, _, rfl⟩ := List.mem_map.mp h
      exact ⟨rfl, rfl⟩

/-! ## Helper lemmas on canonical names and map folds -/

/-- Code point of the lowered character: ASCII upper-case letters gain 32,
every other character is unchanged. -/
theorem toNat_lowerChar (c : Char) :
    (lowerChar c).toNat = if 65 ≤ c.toNat ∧ c.toNat ≤ 90 then c.toNat + 32 else c.toNat := by
  unfold lowerChar Char.toLower
  split
  case isTrue h =>
    rw [if_pos (show 65 ≤ c.toNat ∧ c.toNat ≤ 90 from ⟨h.1, h.2⟩)]
    have hv : (c.toNat + 32).isValidChar := Or.inl (by omega)
    rw [Char.ofNat, dif_pos hv]
    rfl
  case isFalse h =>
    rw [if_neg h]

/-- Lowering a character never yields an ASCII upper-case letter. -/
theorem lowerChar_not_upper (c : Char) : isAsciiUpper (lowerChar c) = false := by
  have h := toNat_lowerChar c
  unfold isAsciiUpper
  by_cases h1 : 65 ≤ c.toNat ∧ c.toNat ≤ 90
  · rw [if_pos h1] at h
    have h2 : ¬ ((lowerChar c).toNat ≤ 90) := by omega
    simp [h2]
  · rw [if_neg h1] at h
    have h2 : ¬ (65 ≤ (lowerChar c).toNat) ∨ ¬ ((lowerChar c).toNat ≤ 90) := by omega
    rcases h2 with h2 | h2 <;> simp [h2]

/-- When isFqdnL holds the list ends in a dot. -/
theorem isFqdnL_lastDot (l : List Char) (h : isFqdnL l = true) :
    l.getLast? = some '.' := by
  unfold isFqdnL at h
  rcases hl : l.getLast? with _ | c
  · rw [hl] at h
    simp at h
  · rw [hl] at h
    split at h
    · rename_i heq
      exact heq
    · simp at h

/-- The canonicalised form of a name always ends in a dot. -/
theorem canonicalName_lastDot (s : String) :
    (canonicalName s).data.getLast? = some '.' := by
  show ((fqdnL s.data).map lowerChar).getLast? = some '.'
  rw [List.getLast?_map]
  have hlast : (fqdnL s.data).getLast? = some '.' := by
    unfold fqdnL
    split
    case isTrue h => exact isFqdnL_lastDot _ h
    case isFalse h => exact List.getLast?_concat _
  rw [hlast]
  rfl

/-- The canonicalised form of a name has no ASCII upper-case letter. -/
theorem canonicalName_no_upper (s : String) :
    ∀ c ∈ (canonicalName s).data, isAsciiUpper c = false := by
  intro c hc
  have hc2 : c ∈ (fqdnL s.data).map lowerChar := hc
  obtain ⟨c0, _, rfl⟩ := List.mem_map.mp hc2
  exact lowerChar_not_upper c0

/-- Checks DNS canonical form of an index key as a boolean: the key ends
in a dot and holds no ASCII upper-case letter. -/
def dnsCanonKeyB (k : String) : Bool :=
  (k.data.getLast? == some '.') && k.data.all (fun c => ! isAsciiUpper c)

/-- Every canonicalised name passes the canonical-form check. -/
theorem canonicalName_canonB (s : String) : dnsCanonKeyB (canonicalName s) = true := by
  unfold dnsCanonKeyB
  rw [Bool.and_eq_true]
  constructor
  · rw [canonicalName_lastDot]
    rfl
  · rw [List.all_eq_true]
    intro c hc
    rw [canonicalName_no_upper s c hc]
    rfl

/-- Reading back an inserted binding: the freshly inserted key returns the
new value, any other key reads the previous map. -/
theorem recordsGet_insert (r : records) (k : String) (v : record) (k2 : String) :
    recordsGet (recordsInsert r k v) k2 = if k = k2 then some v else recordsGet r k2 := by
  by_cases h : k = k2 <;> simp [recordsGet, recordsInsert, List.find?_cons, h]

/-- Every key inserted by the tag step is a canonicalised name. -/
theorem mem_assembleTagStep (config : Config) (phn : String) (host : record)
    (r : records) (tag : String) (kv : String × record)
    (h : kv ∈ assembleTagStep config phn host r tag) :
    kv ∈ r ∨ ∃ s, kv.1 = canonicalName s := by
  unfold assembleTagStep recordsInsert at h
  simp only at h
  split at h
  · rcases List.mem_cons.mp h with h | h
    · exact Or.inr ⟨_, by rw [h]⟩
    · exact Or.inl h
  · exact Or.inl h

/-- Every key inserted by the tag loop is a canonicalised name. -/
theorem mem_assembleTags (config : Config) (phn : String) (host : record) :
    ∀ (tags : List String) (r : records) (kv : String × record),
      kv ∈ assembleTags config phn host r tags → kv ∈ r ∨ ∃ s, kv.1 = canonicalName s := by
  intro tags
  induction tags with
  | nil => exact fun r kv h => Or.inl h
  | cons t ts ih =>
    intro r kv h
    rcases ih (assembleTagStep config phn host r t) kv h with h2 | h2
    · exact mem_assembleTagStep config phn host r t kv h2
    · exact Or.inr h2

/-- Every key inserted by assemblePeer is a canonicalised name. -/
theorem mem_assemblePeer (config : Config) (p : Option PeerStatus) (r : records)
    (kv : String × record) (h : kv ∈ (assemblePeer config p r).1) :
    kv ∈ r ∨ ∃ s, kv.1 = canonicalName s := by
  unfold assemblePeer at h
  rcases p with _ | peer
  · exact Or.inl h
  · simp only at h
    split at h
    · exact Or.inl h
    · split at h
      · exact Or.inl h
      · rcases htags : peer.Tags with _ | tags <;> rw [htags] at h <;> simp only at h
        · rcases List.mem_cons.mp h with h2 | h2
          · exact Or.inr ⟨_, by rw [h2]⟩
          · exact Or.inl h2
        · rcases mem_assembleTags config _ _ tags _ kv h with h2 | h2
          · rcases List.mem_cons.mp h2 with h3 | h3
            · exact Or.inr ⟨_, by rw [h3]⟩
            · exact Or.inl h3
          · exact Or.inr h2

/-- Every key inserted by the peer loop is a canonicalised name. -/
theorem mem_assemblePeers (config : Config) :
    ∀ (peers : List (Option PeerStatus)) (r : records) (kv : String × record),
      kv ∈ assemblePeers config peers r → kv ∈ r ∨ ∃ s, kv.1 = canonicalName s := by
  intro peers
  induction peers with
  | nil => exact fun r kv h => Or.inl h
  | cons p ps ih =>
    intro r kv h
    rcases ih (assemblePeer config p r).1 kv h with h2 | h2
    · exact mem_assemblePeer config p r kv h2
    · exact Or.inr h2

/-- Every key inserted by the ns loop is a canonicalised name. -/
theorem mem_assembleNSFold (sr : record) (key : String → String) :
    ∀ (zs : List String) (r : records) (kv : String × record),
      kv ∈ zs.foldl (fun r zone => recordsInsert r (canonicalName (key zone)) sr) r →
      kv ∈ r ∨ ∃ s, kv.1 = canonicalName s := by
  intro zs
  induction zs with
  | nil => exact fun r kv h => Or.inl h
  | cons z zst ih =>
    intro r kv h
    rcases ih (recordsInsert r (canonicalName (key z)) sr) kv h with h2 | h2
    · rcases List.mem_cons.mp h2 with h3 | h3
      · exact Or.inr ⟨_, by rw [h3]⟩
      · exact Or.inl h3
    · exact Or.inr h2

/-- Every key of an index built by assemble is a canonicalised name. -/
theorem mem_assemble_key (config : Config) (self : Option PeerStatus)
    (peers : List (Option PeerStatus)) (idx : records)
    (hidx : assemble config self peers = some idx) (kv : String × record)
    (hkv : kv ∈ idx) : ∃ s, kv.1 = canonicalName s := by
  unfold assemble at hidx
  split at hidx
  · exact absurd hidx (by simp)
  · simp only at hidx
    rcases hp : (assemblePeer config self (assemblePeers config peers [])).2 with _ | sr <;>
      rw [hp] at hidx <;> simp only [Option.some.injEq] at hidx <;> subst hidx
    · rcases mem_assemblePeer config self _ kv hkv with h2 | h2
      · rcases mem_assemblePeers config peers [] kv h2 with h3 | h3
        · simp at h3
        · exact h3
      · exact h2
    · rcases mem_assembleNSFold sr (fun zone => "ns." ++ zone) config.fastZoneLookup _ kv hkv with h2 | h2
      · rcases mem_assemblePeer config self _ kv h2 with h3 | h3
        · rcases mem_assemblePeers config peers [] kv h3 with h4 | h4
          · simp at h4
          · exact h4
        · exact h3
      · exact h2

/-- After the ns fold, any key reads either the self record or whatever
the starting map holds under it (every fold insertion carries sr). -/
theorem assembleNSFold_get_or (sr : record) :
    ∀ (zs : List String) (r : records) (k : String),
      recordsGet (zs.foldl (fun r zone => recordsInsert r (canonicalName ("ns." ++ zone)) sr) r) k = some sr ∨
      recordsGet (zs.foldl (fun r zone => recordsInsert r (canonicalName ("ns." ++ zone)) sr) r) k = recordsGet r k := by
  intro zs
  induction zs with
  | nil => exact fun r k => Or.inr rfl
  | cons z zst ih =>
    intro r k
    rw [List.foldl_cons]
    rcases ih (recordsInsert r (canonicalName ("ns." ++ z)) sr) k with h | h
    · exact Or.inl h
    · rw [h, recordsGet_insert]
      split
      · exact Or.inl rfl
      · exact Or.inr rfl

/-- After the ns fold, the canonicalised ns key of every zone of the
folded list reads the self record. -/
theorem assembleNSFold_get_mem (sr : record) :
    ∀ (zs : List String) (r : records) (zone : String), zone ∈ zs →
      recordsGet (zs.foldl (fun r z => recordsInsert r (canonicalName ("ns." ++ z)) sr) r)
        (canonicalName ("ns." ++ zone)) = some sr := by
  intro zs
  induction zs with
  | nil => intro r zone h; exact absurd h (List.not_mem_nil zone)
  | cons z zst ih =>
    intro r zone hz
    rw [List.foldl_cons]
    rcases List.mem_cons.mp hz with rfl | hz2
    · rcases assembleNSFold_get_or sr zst (recordsInsert r (canonicalName ("ns." ++ zone)) sr)
        (canonicalName ("ns." ++ zone)) with h | h
      · exact h
      · rw [h, recordsGet_insert, if_pos rfl]
    · exact ih (recordsInsert r (canonicalName ("ns." ++ z)) sr) zone hz2

/-- C7: with a non-empty default zone, when the self peer yields a record
the index assemble returns maps the canonicalised ns key of every zone of
the zone set to that record; and when the self peer yields no record the
returned index is exactly the peers-only map, with no ns entry step. -/
theorem claimC7_ns_for_zones (config : Config) (self : Option PeerStatus)
    (peers : List (Option PeerStatus)) (hdz : ¬ config.DefaultZone = "") :
    (∀ (sr : record) (zone : String),
      (assemblePeer config self (assemblePeers config peers [])).2 = some sr →
      zone ∈ config.fastZoneLookup →
      assemble config self peers
        = some (assembleNS config sr (assemblePeer config self (assemblePeers config peers [])).1) ∧
      recordsGet (assembleNS config sr (assemblePeer config self (assemblePeers config peers [])).1)
        (canonicalName ("ns." ++ zone)) = some sr) ∧
    ((assemblePeer config self (assemblePeers config peers [])).2 = none →
      assemble config self peers = some (assemblePeer config self (assemblePeers config peers [])).1) := by
  constructor
  · intro sr zone hsr hz
    constructor
    · unfold assemble
      rw [if_neg hdz]
      simp only
      rw [hsr]
    · exact assembleNSFold_get_mem sr config.fastZoneLookup
        (assemblePeer config self (assemblePeers config peers [])).1 zone hz
  · intro hnone
    unfold assemble
    rw [if_neg hdz]
    simp only
    rw [hnone]

/-- Witness for C7 at the concrete configuration, self peer and peer
list, for the tag-mapped zone example.com. -/
theorem claimC7_witness :
    assemble cfgT (some selfPeer) [some peerFoo]
      = some (assembleNS cfgT recSelf
          (assemblePeer cfgT (some selfPeer) (assemblePeers cfgT [some peerFoo] [])).1) ∧
    recordsGet (assembleNS cfgT recSelf
        (assemblePeer cfgT (some selfPeer) (assemblePeers cfgT [some peerFoo] [])).1)
      (canonicalName ("ns." ++ "example.com.")) = some recSelf :=
  (claimC7_ns_for_zones cfgT (some selfPeer) [some peerFoo] (by decide)).1 recSelf
    "example.com." (by decide) (by decide)

/-- C8: every key of every index assemble returns is in DNS canonical
form: it ends in a dot and holds no ASCII upper-case letter, whatever the
case or dot-termination of the configured zones and peer names. -/
theorem claimC8_canonical_keys (config : Config) (self : Option PeerStatus)
    (peers : List (Option PeerStatus)) (idx : records)
    (hidx : assemble config self peers = some idx) :
    ∀ kv ∈ idx, dnsCanonKeyB kv.1 = true := by
  intro kv hkv
  obtain ⟨s, hs⟩ := mem_assemble_key config self peers idx hidx kv hkv
  rw [hs]
  exact canonicalName_canonB s

/-- Witness for C8 at the concrete assembled index and one of its keys. -/
theorem claimC8_witness :
    assemble cfgT (some selfPeer) [some peerFoo]
      = some (assembleNS cfgT recSelf
          (assemblePeer cfgT (some selfPeer) (assemblePeers cfgT [some peerFoo] [])).1) ∧
    (("foo.corp.example.com.", recFoo) ∈ assembleNS cfgT recSelf
        (assemblePeer cfgT (some selfPeer) (assemblePeers cfgT [some peerFoo] [])).1) ∧
    dnsCanonKeyB "foo.corp.example.com." = true := by
  refine ⟨by decide, by decide, ?_⟩
  exact claimC8_canonical_keys cfgT (some selfPeer) [some peerFoo]
    (assembleNS cfgT recSelf (assemblePeer cfgT (some selfPeer) (assemblePeers cfgT [some peerFoo] [])).1)
    (by decide) ("foo.corp.example.com.", recFoo) (by decide)

/-- Which keys the tag loop makes present: a key is bound after the loop
exactly when it was bound before, or some tag of the list has a non-empty
zone mapping (after stripping a leading tag: marker) and the key is the
canonicalised host-in-that-zone name. -/
theorem assembleTags_get_isSome (config : Config) (phn : String) (host : record) :
    ∀ (tags : List String) (r : records) (k : String),
      (recordsGet (assembleTags config phn host r tags) k).isSome = true ↔
        ((recordsGet r k).isSome = true ∨
         ∃ tag ∈ tags, zonesGet config.Zones (trimPfx tag "tag:") ≠ "" ∧
           k = canonicalName (phn ++ "." ++ zonesGet config.Zones (trimPfx tag "tag:"))) := by
  intro tags
  induction tags with
  | nil =>
    intro r k
    simp [assembleTags]
  | cons t ts ih =>
    intro r k
    have step : assembleTags config phn host r (t :: ts)
        = assembleTags config phn host (assembleTagStep config phn host r t) ts := rfl
    rw [step, ih]
    unfold assembleTagStep
    simp only
    by_cases hz : zonesGet config.Zones (trimPfx t "tag:") ≠ ""
    · rw [if_pos hz]
      show (recordsGet (recordsInsert r (canonicalName (phn ++ "." ++ zonesGet config.Zones (trimPfx t "tag:"))) host) k).isSome = true ∨ _ ↔ _
      rw [recordsGet_insert]
      by_cases hk : canonicalName (phn ++ "." ++ zonesGet config.Zones (trimPfx t "tag:")) = k
      · rw [if_pos hk]
        exact iff_of_true (Or.inl rfl) (Or.inr ⟨t, List.mem_cons_self t ts, hz, hk.symm⟩)
      · rw [if_neg hk]
        constructor
        · rintro (h | ⟨tag, htag, hz2, hk2⟩)
          · exact Or.inl h
          · exact Or.inr ⟨tag, List.mem_cons_of_mem t htag, hz2, hk2⟩
        · rintro (h | ⟨tag, htag, hz2, hk2⟩)
          · exact Or.inl h
          · rcases List.mem_cons.mp htag with rfl | htag2
            · exact absurd hk2.symm hk
            · exact Or.inr ⟨tag, htag2, hz2, hk2⟩
    · rw [if_neg hz]
      constructor
      · rintro (h | ⟨tag, htag, hz2, hk2⟩)
        · exact Or.inl h
        · exact Or.inr ⟨tag, List.mem_cons_of_mem t htag, hz2, hk2⟩
      · rintro (h | ⟨tag, htag, hz2, hk2⟩)
        · exact Or.inl h
        · rcases List.mem_cons.mp htag with rfl | htag2
          · exact absurd hz2 hz
          · exact Or.inr ⟨tag, htag2, hz2, hk2⟩

/-- C10: for a peer with a usable source name (processed alone), an index
key is bound exactly when it is the default-zone key, or some tag of the
peer, after stripping a leading tag: marker, has a non-empty zone mapping
and the key is the canonicalised host name in that zone; a tag whose
stripped form has no mapping (or maps to the empty string) contributes no
entry. -/
theorem claimC10_tag_zone (config : Config) (peer : PeerStatus) (tags : List String)
    (h1 : ¬ peer.DNSName = "")
    (h2 : ¬ peerDNSHostname (canonicalName peer.DNSName) = "")
    (htags : peer.Tags = some tags) (k : String) :
    (recordsGet (assemblePeer config (some peer) []).1 k).isSome = true ↔
      (k = canonicalName (peerDNSHostname (canonicalName peer.DNSName) ++ "." ++ config.DefaultZone) ∨
       ∃ tag ∈ tags, zonesGet config.Zones (trimPfx tag "tag:") ≠ "" ∧
         k = canonicalName (peerDNSHostname (canonicalName peer.DNSName) ++ "."
               ++ zonesGet config.Zones (trimPfx tag "tag:"))) := by
  have hred : (assemblePeer config (some peer) []).1
      = assembleTags config (peerDNSHostname (canonicalName peer.DNSName))
          ⟨canonicalName peer.DNSName, (bucketAddrs peer.TailscaleIPs).1, (bucketAddrs peer.TailscaleIPs).2⟩
          (recordsInsert []
            (canonicalName (peerDNSHostname (canonicalName peer.DNSName) ++ "." ++ config.DefaultZone))
            ⟨canonicalName peer.DNSName, (bucketAddrs peer.TailscaleIPs).1, (bucketAddrs peer.TailscaleIPs).2⟩)
          tags := by
    unfold assemblePeer
    simp only
    rw [if_neg h1]
    rw [if_neg h2, htags]
  rw [hred, assembleTags_get_isSome, recordsGet_insert]
  by_cases hk : canonicalName (peerDNSHostname (canonicalName peer.DNSName) ++ "." ++ config.DefaultZone) = k
  · rw [if_pos hk]
    exact iff_of_true (Or.inl rfl) (Or.inl hk.symm)
  · rw [if_neg hk]
    constructor
    · rintro (h | h)
      · exact absurd h (by simp [recordsGet])
      · exact Or.inr h
    · rintro (h | h)
      · exact absurd h.symm hk
      · exact Or.inr h

/-- Witness for C10: over the concrete configuration, peerFoo carrying
tag:prod is bound under foo.example.com. (the zone mapped by the config
key prod), and is not bound under a name in an unmapped zone. -/
theorem claimC10_witness :
    (recordsGet (assemblePeer cfgT (some peerFoo) []).1 "foo.example.com.").isSome = true ∧
    (recordsGet (assemblePeer cfgT (some peerFoo) []).1 "foo.den.example.").isSome = false := by
  constructor
  · exact (claimC10_tag_zone cfgT peerFoo ["tag:prod"] (by decide) (by decide) rfl
      "foo.example.com.").mpr (by decide)
  · have h := claimC10_tag_zone cfgT peerFoo ["tag:prod"] (by decide) (by decide) rfl
      "foo.den.example."
    rw [← Bool.not_eq_true]
    intro hh
    exact absurd (h.mp hh) (by decide)
